import Mathlib

/-!
Shallow embedding of `src/PgnTools/Assets/lc0/lc0_match_downloader.py`.

The embedding models the SQLite state store (`MatchDatabase`), the download
loop (`MatchDownloader.download_match` / `_validate_pgn_content`) and the
PGN processor (`PGNProcessor`).  External libraries are modelled as oracles:
`datetime.fromisoformat` becomes a `parseIso : String → Option Date`
parameter (a `none` result is a raised `ValueError`), and the results of
`gzip`/`tarfile` calls on a downloaded payload are carried as fields of
`Content` (a `none`/`readError` is a raised exception).  All string
primitives are re-implemented structurally on `String.data` so that every
definition evaluates inside the kernel; each mirrors the Python `str`
operation used at the corresponding source line.
-/

/-- Python `s.startswith(p)`: character-wise prefix test. -/
def startsWithS (s p : String) : Bool := p.data.isPrefixOf s.data

/-- Python `s.endswith(p)`: character-wise suffix test. -/
def endsWithS (s p : String) : Bool := p.data.isSuffixOf s.data

/-- Helper for Python `p in s`: does `pat` occur as a contiguous run? -/
def containsSeq (pat : List Char) : List Char → Bool
  | [] => pat.isEmpty
  | c :: rest => pat.isPrefixOf (c :: rest) || containsSeq pat rest

/-- Python `p in s` on strings. -/
def containsStr (s p : String) : Bool := containsSeq p.data s.data

/-- Python `s.strip() == ''`: every character is whitespace. -/
def isBlank (s : String) : Bool := s.data.all Char.isWhitespace

/-- Python `s.split('\n')` on the character list. -/
def splitNlChars : List Char → List (List Char)
  | [] => [[]]
  | c :: rest =>
    match splitNlChars rest with
    | [] => [[]]
    | l :: ls => if c = '\n' then [] :: l :: ls else (c :: l) :: ls

/-- Python `s.split('\n')`. -/
def splitNl (s : String) : List String := (splitNlChars s.data).map String.mk

/-- Python `'\n'.join(lines)`. -/
def joinNl (ls : List String) : String := String.intercalate "\n" ls

/-- Python `s.split()[0]` as a total function: `none` is the `IndexError`
raised when `s` contains no non-whitespace character. -/
def firstTok (s : String) : Option String :=
  match s.data.dropWhile Char.isWhitespace with
  | [] => none
  | cs => some (String.mk (cs.takeWhile (fun c => !c.isWhitespace)))

/-- A parsed `datetime` value.  The version-map thresholds in the source all
have a zero time-of-day component, so comparing a full `datetime` against a
threshold only ever depends on the `(year, month, day)` triple; the triple is
therefore a faithful model of the values flowing through the comparisons. -/
structure Date where
  y : Nat
  m : Nat
  d : Nat
deriving DecidableEq, Repr

/-- `datetime` comparison `a <= b` (lexicographic on year, month, day). -/
def Date.le (a b : Date) : Bool :=
  if a.y < b.y then true
  else if b.y < a.y then false
  else if a.m < b.m then true
  else if b.m < a.m then false
  else decide (a.d ≤ b.d)

/-- `Config.MAX_RETRIES`. -/
def MAX_RETRIES : Nat := 3

/-- `Config.STORAGE_BASE_URL`. -/
def STORAGE_BASE_URL : String := "https://storage.lczero.org/files/match_pgns/"

/-- `Config.VERSION_MAP`: ordered `(threshold, version)` table. -/
def VERSION_MAP : List (Date × String) :=
  [ (⟨2025, 1, 1⟩, "v0.32.0"),
    (⟨2024, 6, 1⟩, "v0.31.0"),
    (⟨2023, 7, 1⟩, "v0.30.0"),
    (⟨2023, 1, 1⟩, "v0.29.0"),
    (⟨2022, 1, 1⟩, "v0.28.0"),
    (⟨2021, 1, 1⟩, "v0.27.0"),
    (⟨2020, 1, 1⟩, "v0.26.0"),
    (⟨2019, 1, 1⟩, "v0.25.0"),
    (⟨2018, 1, 1⟩, "v0.24.0"),
    (⟨1970, 1, 1⟩, "v0.23.0") ]

/-- The loop body of `PGNProcessor._get_lc0_version`: first table entry whose
threshold the date reaches, with the post-loop `"v0.21.0"` fallback. -/
def versionFor : List (Date × String) → Date → String
  | [], _ => "v0.21.0"
  | (thr, v) :: rest, dt => if Date.le thr dt then v else versionFor rest dt

/-- The same loop without the fallback, to reason about whether the post-loop
return is reached. -/
def firstMatch : List (Date × String) → Date → Option String
  | [], _ => none
  | (thr, v) :: rest, dt => if Date.le thr dt then some v else firstMatch rest dt

/-- `PGNProcessor._get_lc0_version`.  `parseIso` models
`datetime.fromisoformat`; a `none` parse is the caught exception branch. -/
def getLc0Version (parseIso : String → Option Date) (dateStr : String) : String :=
  match (firstTok dateStr).bind parseIso with
  | none => "v0.21.0"
  | some dt => versionFor VERSION_MAP dt

/-- One row of the `matches` table. -/
structure MatchRow where
  matchId : Nat
  date : String
  pgnFilename : String
  status : String
  attempts : Nat
  processed : Bool
deriving DecidableEq, Repr

/-- One row of the append-only `download_log` table. -/
structure LogRow where
  matchId : Nat
  status : String
  message : String
deriving DecidableEq, Repr

/-- The `MatchDatabase` state: `rows` is the `matches` table (`matches` is a
reserved word in Lean), `log` the `download_log` table. -/
structure DB where
  rows : List MatchRow
  log : List LogRow
deriving DecidableEq, Repr

/-- The freshly created database. -/
def emptyDB : DB := ⟨[], []⟩

/-- The row created by `INSERT OR IGNORE INTO matches (match_id, date,
pgn_filename)`: the remaining columns take their schema defaults. -/
def newRow (e : Nat × String × String) : MatchRow :=
  ⟨e.1, e.2.1, e.2.2, "pending", 0, false⟩

/-- One `INSERT OR IGNORE` execution: skipped when the primary key exists. -/
def insertOne (db : DB) (e : Nat × String × String) : DB :=
  if db.rows.any (fun r => r.matchId == e.1) then db
  else { db with rows := db.rows ++ [newRow e] }

/-- `MatchDatabase.insert_matches`: bulk `INSERT OR IGNORE`. -/
def insert_matches (db : DB) (es : List (Nat × String × String)) : DB :=
  es.foldl insertOne db

/-- The `WHERE` clause of `get_pending_downloads`. -/
def eligible (r : MatchRow) : Bool :=
  (r.status == "pending" || r.status == "retry") && decide (r.attempts < MAX_RETRIES)

/-- The `ORDER BY date DESC` relation (SQLite compares `TEXT` columns
lexicographically by code point). -/
def dateGe (a b : MatchRow) : Prop := b.date ≤ a.date

instance : DecidableRel dateGe :=
  fun a b => inferInstanceAs (Decidable (b.date ≤ a.date))

instance : IsTotal MatchRow dateGe :=
  ⟨fun a b => le_total b.date a.date⟩

instance : IsTrans MatchRow dateGe :=
  ⟨fun _ _ _ h1 h2 => le_trans h2 h1⟩

/-- `MatchDatabase.get_pending_downloads`: pending/retry rows under the
attempt ceiling, newest date first, optionally capped (`if limit:` is falsy
for `0`, and a non-positive SQLite `LIMIT` does not cap). -/
def get_pending_downloads (db : DB) (limit : Option Nat) : List MatchRow :=
  let base := List.insertionSort dateGe (db.rows.filter eligible)
  match limit with
  | some n => if 0 < n then base.take n else base
  | none => base

/-- `MatchDatabase.update_download_status`: sets the status, increments the
attempt counter, and appends one audit-log row. -/
def update_download_status (db : DB) (id : Nat) (status msg : String) : DB :=
  { rows := db.rows.map (fun r =>
      if r.matchId == id then { r with status := status, attempts := r.attempts + 1 } else r),
    log := db.log ++ [⟨id, status, msg⟩] }

/-- `MatchDatabase.mark_processed`. -/
def mark_processed (db : DB) (id : Nat) : DB :=
  { db with rows := db.rows.map (fun r =>
      if r.matchId == id then { r with processed := true } else r) }

/-- The `WHERE` clause of the `process_all` selection query. -/
def processAllSelects (r : MatchRow) : Bool :=
  r.status == "success" && !r.processed

/-- Outcome of opening one tar member in `_extract_from_archive`:
`tar.extractfile` returned `None`, reading raised, or the decoded text. -/
inductive MemberFile where
  | absent
  | readError
  | content (text : String)
deriving DecidableEq, Repr

/-- One member of a downloaded archive. -/
structure TarMember where
  name : String
  file : MemberFile
deriving DecidableEq, Repr

/-- A downloaded payload, carrying the outcomes of the external library
calls made on it: `tarParse` is the member listing produced by
`gzip` + `tarfile` (`none` when those calls raise), `decoded` the
`errors='ignore'` UTF-8 decoding of the raw bytes. -/
structure Content where
  tarParse : Option (List TarMember)
  decoded : String
deriving DecidableEq, Repr

/-- `MatchDownloader._validate_pgn_content`: any exception is caught and
yields `False`; unknown extensions fall through to `return False`. -/
def validatePgnContent (c : Content) (filename : String) : Bool :=
  if endsWithS filename ".tar.gz" then
    match c.tarParse with
    | some members => members.any (fun m => endsWithS m.name ".pgn")
    | none => false
  else if endsWithS filename ".pgn" then
    containsSeq "[Event".data (c.decoded.data.take 500)
      || containsSeq "[White".data (c.decoded.data.take 500)
  else false

/-- Outcome of one HTTP GET in `download_match`: a 200 with a body, a 404, a
different status code, or a timeout/exception. -/
inductive Resp where
  | ok (c : Content)
  | notFound
  | otherStatus (code : Nat)
  | netError
deriving DecidableEq, Repr

/-- The observable effects of one `download_match` call. -/
structure DownloadResult where
  db : DB
  savedFile : Option (String × Content)
  returnValue : Bool
deriving DecidableEq, Repr

/-- Does this candidate get accepted by the loop body of `download_match`:
a 200 response whose payload validates. -/
def accepts (pgnFilename : String) (cand : String × Resp) : Bool :=
  match cand.2 with
  | .ok c => validatePgnContent c pgnFilename
  | _ => false

/-- The candidate loop of `MatchDownloader.download_match`: the first
accepted candidate is written to disk and recorded `success`; a 404, other
status, timeout, exception, or failed validation moves to the next
candidate; exhaustion records `failed`. -/
def tryCandidates (db : DB) (matchId : Nat) (pgnFilename : String) :
    List (String × Resp) → DownloadResult
  | [] => ⟨update_download_status db matchId "failed" "All URL patterns failed", none, false⟩
  | (url, r) :: rest =>
    match r with
    | .ok c =>
      if validatePgnContent c pgnFilename then
        ⟨update_download_status db matchId "success" ("Downloaded from " ++ url),
          some (pgnFilename, c), true⟩
      else tryCandidates db matchId pgnFilename rest
    | _ => tryCandidates db matchId pgnFilename rest

/-- `MatchDownloader._extract_run_id`: a stub returning run 1. -/
def extractRunId (_matchId : Nat) (_dateStr : String) : Nat := 1

/-- The `url_patterns` list built in `download_match`. -/
def urlPatterns (runId matchId : Nat) : List String :=
  [ STORAGE_BASE_URL ++ toString runId ++ "/match_" ++ toString matchId ++ ".pgn.tar.gz",
    STORAGE_BASE_URL ++ toString runId ++ "/match_" ++ toString matchId ++ ".pgn",
    STORAGE_BASE_URL ++ "match_" ++ toString matchId ++ ".pgn.tar.gz",
    STORAGE_BASE_URL ++ "match_" ++ toString matchId ++ ".pgn" ]

/-- `MatchDownloader.download_match`; `net` is the network oracle giving the
response for each candidate URL. -/
def download_match (db : DB) (matchId : Nat) (dateStr pgnFilename : String)
    (net : String → Resp) : DownloadResult :=
  tryCandidates db matchId pgnFilename
    ((urlPatterns (extractRunId matchId dateStr) matchId).map (fun u => (u, net u)))

/-- The member loop of `PGNProcessor._extract_from_archive`: a raised read
aborts the loop and the exception handler returns the list built so far. -/
def extractLoop : List TarMember → List String → List String
  | [], acc => acc
  | m :: rest, acc =>
    if endsWithS m.name ".pgn" then
      match m.file with
      | .absent => extractLoop rest acc
      | .readError => acc
      | .content s => extractLoop rest (acc ++ [s])
    else extractLoop rest acc

/-- `PGNProcessor._extract_from_archive`: an exception while opening the
archive is caught and yields the empty list. -/
def extractFromArchive (c : Content) : List String :=
  match c.tarParse with
  | none => []
  | some members => extractLoop members []

/-- The `[Date "..."]` header injected by `_process_pgn_content`. -/
def dateLine (d : String) : String := "[Date \"" ++ d ++ "\"]"

/-- The rewritten `[White ...]` header. -/
def whiteLine (v : String) : String := "[White \"Lc0 " ++ v ++ "\"]"

/-- The rewritten `[Black ...]` header. -/
def blackLine (v : String) : String := "[Black \"Lc0 " ++ v ++ "\"]"

/-- The provenance `[Event ...]` header built from the match id. -/
def eventLine (matchId : Nat) : String := "[Event \"Lc0 match " ++ toString matchId ++ "\"]"

/-- `any('[Date' in l for l in lines[:20])` in `_process_pgn_content`. -/
def hasDateIn20 (lines : List String) : Bool :=
  (lines.take 20).any (fun l => containsStr l "[Date")

/-- The line loop of `PGNProcessor._process_pgn_content`, with the guards in
source order and the `in_headers` flag threaded through. -/
def processLines (dateOnly ver : String) (matchId : Nat) (hasDate : Bool) :
    List String → Bool → List String
  | [], _ => []
  | line :: rest, inHeaders =>
    if inHeaders && startsWithS line "[Event" then
      line :: (if hasDate then processLines dateOnly ver matchId hasDate rest inHeaders
               else dateLine dateOnly :: processLines dateOnly ver matchId hasDate rest inHeaders)
    else if startsWithS line "[White" then
      whiteLine ver :: processLines dateOnly ver matchId hasDate rest inHeaders
    else if startsWithS line "[Black" then
      blackLine ver :: processLines dateOnly ver matchId hasDate rest inHeaders
    else if startsWithS line "[Event" then
      eventLine matchId :: processLines dateOnly ver matchId hasDate rest inHeaders
    else if inHeaders && isBlank line then
      line :: processLines dateOnly ver matchId hasDate rest false
    else
      line :: processLines dateOnly ver matchId hasDate rest inHeaders

/-- `PGNProcessor._process_pgn_content`.  The `none` result is the
uncaught `IndexError` from `match_date.split()[0]` on an all-whitespace
date string (the version lookup before it catches its own exceptions). -/
def processPgnContent (parseIso : String → Option Date) (pgnText matchDate : String)
    (matchId : Nat) : Option String :=
  let ver := getLc0Version parseIso matchDate
  match firstTok matchDate with
  | none => none
  | some dateOnly =>
    let lines := splitNl pgnText
    some (joinNl (processLines dateOnly ver matchId (hasDateIn20 lines) lines true))

/-- `PGNProcessor._organize_by_month`: the emitted append, addressed by the
`(year, month)` of the parsed date, with the `'\n\n'` separator; a parse
failure is caught and nothing is appended. -/
def organizeByMonth (parseIso : String → Option Date) (dateStr content : String) :
    Option ((Nat × Nat) × String) :=
  match (firstTok dateStr).bind parseIso with
  | none => none
  | some dt => some ((dt.y, dt.m), content ++ "\n\n")

/-- The per-unit loop of `process_match`: blank units are skipped; a raised
`_process_pgn_content` aborts the loop (`false` flag) keeping the appends
already written; `_organize_by_month` never raises. -/
def processUnits (parseIso : String → Option Date) (dateStr : String) (matchId : Nat) :
    List String → List ((Nat × Nat) × String) × Bool
  | [] => ([], true)
  | t :: rest =>
    if isBlank t then processUnits parseIso dateStr matchId rest
    else
      match processPgnContent parseIso t dateStr matchId with
      | none => ([], false)
      | some processed =>
        let tail := processUnits parseIso dateStr matchId rest
        match organizeByMonth parseIso dateStr processed with
        | none => (tail.1, tail.2)
        | some a => (a :: tail.1, tail.2)

/-- The observable effects of one `process_match` call: the database after
the call and the list of `(year, month)`-addressed appends written to the
monthly aggregate files. -/
structure ProcessResult where
  db : DB
  appends : List ((Nat × Nat) × String)
deriving DecidableEq, Repr

/-- `PGNProcessor.process_match`; `files` is the download directory
(filename to stored payload).  A missing file returns early; otherwise the
units are extracted and processed, and `mark_processed` runs unless an
exception escaped the loop. -/
def processMatch (parseIso : String → Option Date) (files : String → Option Content)
    (db : DB) (matchId : Nat) (dateStr pgnFilename : String) : ProcessResult :=
  match files pgnFilename with
  | none => ⟨db, []⟩
  | some c =>
    let units := if endsWithS pgnFilename ".tar.gz" then extractFromArchive c else [c.decoded]
    let res := processUnits parseIso dateStr matchId units
    ⟨if res.2 then mark_processed db matchId else db, res.1⟩

/-- Database states reachable from a fresh database by the pipeline's write
operations, each guarded the way its caller guards it: `insert_matches` on
any scraped batch, `update_download_status` only on an id produced by
`get_pending_downloads`, and `mark_processed` only on an id selected by the
`process_all` query (status `success`, not yet processed). -/
inductive Reachable : DB → Prop where
  | empty : Reachable emptyDB
  | insert {db : DB} (es : List (Nat × String × String)) :
      Reachable db → Reachable (insert_matches db es)
  | update {db : DB} (id : Nat) (st msg : String)
      (hmem : ∃ r, r ∈ get_pending_downloads db none ∧ r.matchId = id) :
      Reachable db → Reachable (update_download_status db id st msg)
  | mark {db : DB} (id : Nat)
      (hsel : ∃ r, r ∈ db.rows ∧ r.matchId = id ∧ processAllSelects r = true) :
      Reachable db → Reachable (mark_processed db id)

theorem Date.le_iff (a b : Date) :
    Date.le a b = true ↔
      (a.y < b.y ∨ (a.y = b.y ∧ (a.m < b.m ∨ (a.m = b.m ∧ a.d ≤ b.d)))) := by
  unfold Date.le
  split_ifs <;> simp_all <;> omega

theorem Date.le_comp {a b c : Date} (h1 : Date.le a b = true) (h2 : Date.le b c = true) :
    Date.le a c = true := by
  rw [Date.le_iff] at *
  omega

theorem firstMatch_isSome {t : List (Date × String)} {d : Date}
    (h : ∃ e ∈ t, Date.le e.1 d = true) : (firstMatch t d).isSome = true := by
  induction t with
  | nil => simp at h
  | cons hd tl ih =>
    obtain ⟨e, he, hle⟩ := h
    rw [firstMatch]
    rcases List.mem_cons.mp he with rfl | he'
    · rw [hle]; rfl
    · split
      · rfl
      · exact ih ⟨e, he', hle⟩

theorem firstMatch_none {t : List (Date × String)} {d : Date}
    (h : ∀ e ∈ t, Date.le e.1 d = false) : firstMatch t d = none := by
  induction t with
  | nil => rfl
  | cons hd tl ih =>
    rw [firstMatch, h hd (List.mem_cons_self hd tl)]
    exact ih (fun e he => h e (List.mem_cons_of_mem hd he))

theorem versionFor_eq_getD (t : List (Date × String)) (d : Date) :
    versionFor t d = (firstMatch t d).getD "v0.21.0" := by
  induction t with
  | nil => rfl
  | cons hd tl ih =>
    rw [versionFor, firstMatch]
    split
    · rfl
    · exact ih

theorem startsWith_both {l p q : String} (hp : startsWithS l p = true)
    (hq : startsWithS l q = true) (hlen : p.data.length = q.data.length) :
    p.data = q.data := by
  rw [startsWithS, List.isPrefixOf_iff_prefix] at hp hq
  exact (List.prefix_of_prefix_length_le hp hq (le_of_eq hlen)).sublist.eq_of_length hlen

theorem startsWith_of_append {a b p : String} (h : startsWithS (a ++ b) p = true)
    (hlen : p.data.length ≤ a.data.length) : startsWithS a p = true := by
  rw [startsWithS, List.isPrefixOf_iff_prefix, List.prefix_iff_eq_take] at h ⊢
  rw [String.data_append, List.take_append_of_le_length hlen] at h
  exact h

theorem not_sw_concat {a p : String} (b : String) (hne : startsWithS a p = false)
    (hlen : p.data.length ≤ a.data.length) : startsWithS (a ++ b) p = false := by
  by_contra h
  rw [Bool.not_eq_false] at h
  rw [startsWith_of_append h hlen] at hne
  exact Bool.true_eq_false.mp hne

theorem sw_len_concat (a b p : String) (h : p.data.length ≤ a.data.length) :
    p.data.length ≤ (a ++ b).data.length := by
  rw [String.data_append, List.length_append]
  omega

theorem not_sw_concat2 {a p : String} (b c : String) (hne : startsWithS a p = false)
    (hlen : p.data.length ≤ a.data.length) : startsWithS (a ++ b ++ c) p = false :=
  not_sw_concat c (not_sw_concat b hne hlen) (sw_len_concat a b p hlen)

theorem not_sw_dateLine_white (d : String) : startsWithS (dateLine d) "[White" = false := by
  unfold dateLine
  exact not_sw_concat2 d "\"]" (by decide) (by decide)

theorem not_sw_dateLine_black (d : String) : startsWithS (dateLine d) "[Black" = false := by
  unfold dateLine
  exact not_sw_concat2 d "\"]" (by decide) (by decide)

theorem not_sw_whiteLine_black (v : String) : startsWithS (whiteLine v) "[Black" = false := by
  unfold whiteLine
  exact not_sw_concat2 v "\"]" (by decide) (by decide)

theorem not_sw_blackLine_white (v : String) : startsWithS (blackLine v) "[White" = false := by
  unfold blackLine
  exact not_sw_concat2 v "\"]" (by decide) (by decide)

theorem not_sw_eventLine_white (m : Nat) : startsWithS (eventLine m) "[White" = false := by
  unfold eventLine
  exact not_sw_concat2 (toString m) "\"]" (by decide) (by decide)

theorem not_sw_eventLine_black (m : Nat) : startsWithS (eventLine m) "[Black" = false := by
  unfold eventLine
  exact not_sw_concat2 (toString m) "\"]" (by decide) (by decide)

theorem ev_not_white {l : String} (h : startsWithS l "[Event" = true) :
    startsWithS l "[White" = false := by
  by_contra hw
  rw [Bool.not_eq_false] at hw
  exact absurd (startsWith_both h hw (by decide)) (by decide)

theorem ev_not_black {l : String} (h : startsWithS l "[Event" = true) :
    startsWithS l "[Black" = false := by
  by_contra hw
  rw [Bool.not_eq_false] at hw
  exact absurd (startsWith_both h hw (by decide)) (by decide)

theorem processLines_shape (dateOnly ver : String) (mid : Nat) (hasDate : Bool) :
    ∀ (lines : List String) (inH : Bool) (l : String),
      l ∈ processLines dateOnly ver mid hasDate lines inH →
      l = dateLine dateOnly ∨ l = whiteLine ver ∨ l = blackLine ver ∨ l = eventLine mid
        ∨ (l ∈ lines ∧ (startsWithS l "[Event" = true
            ∨ (startsWithS l "[White" = false ∧ startsWithS l "[Black" = false))) := by
  intro lines
  induction lines with
  | nil => intro inH l hl; simp [processLines] at hl
  | cons line rest ih =>
    intro inH l hl
    have lift : ∀ {inH2 : Bool}, l ∈ processLines dateOnly ver mid hasDate rest inH2 →
        (l = dateLine dateOnly ∨ l = whiteLine ver ∨ l = blackLine ver ∨ l = eventLine mid
          ∨ (l ∈ line :: rest ∧ (startsWithS l "[Event" = true
              ∨ (startsWithS l "[White" = false ∧ startsWithS l "[Black" = false)))) := by
      intro inH2 hrec
      rcases ih inH2 l hrec with h | h | h | h | ⟨hm, hp⟩
      · exact Or.inl h
      · exact Or.inr (Or.inl h)
      · exact Or.inr (Or.inr (Or.inl h))
      · exact Or.inr (Or.inr (Or.inr (Or.inl h)))
      · exact Or.inr (Or.inr (Or.inr (Or.inr ⟨List.mem_cons_of_mem _ hm, hp⟩)))
    rw [processLines] at hl
    by_cases h1 : (inH && startsWithS line "[Event") = true
    · rw [if_pos h1] at hl
      rcases List.mem_cons.mp hl with rfl | hl2
      · have h1' := h1
        simp only [Bool.and_eq_true] at h1'
        exact Or.inr (Or.inr (Or.inr (Or.inr
          ⟨List.mem_cons_self _ _, Or.inl h1'.2⟩)))
      · by_cases hD : hasDate = true
        · rw [if_pos hD] at hl2
          exact lift hl2
        · rw [if_neg hD] at hl2
          rcases List.mem_cons.mp hl2 with rfl | hl3
          · exact Or.inl rfl
          · exact lift hl3
    · rw [if_neg h1] at hl
      by_cases h2 : startsWithS line "[White" = true
      · rw [if_pos h2] at hl
        rcases List.mem_cons.mp hl with rfl | hl2
        · exact Or.inr (Or.inl rfl)
        · exact lift hl2
      · rw [if_neg h2] at hl
        by_cases h3 : startsWithS line "[Black" = true
        · rw [if_pos h3] at hl
          rcases List.mem_cons.mp hl with rfl | hl2
          · exact Or.inr (Or.inr (Or.inl rfl))
          · exact lift hl2
        · rw [if_neg h3] at hl
          by_cases h4 : startsWithS line "[Event" = true
          · rw [if_pos h4] at hl
            rcases List.mem_cons.mp hl with rfl | hl2
            · exact Or.inr (Or.inr (Or.inr (Or.inl rfl)))
            · exact lift hl2
          · rw [if_neg h4] at hl
            simp only [Bool.not_eq_true] at h2 h3
            by_cases h5 : (inH && isBlank line) = true
            · rw [if_pos h5] at hl
              rcases List.mem_cons.mp hl with rfl | hl2
              · exact Or.inr (Or.inr (Or.inr (Or.inr
                  ⟨List.mem_cons_self _ _, Or.inr ⟨h2, h3⟩⟩)))
              · exact lift hl2
            · rw [if_neg h5] at hl
              rcases List.mem_cons.mp hl with rfl | hl2
              · exact Or.inr (Or.inr (Or.inr (Or.inr
                  ⟨List.mem_cons_self _ _, Or.inr ⟨h2, h3⟩⟩)))
              · exact lift hl2

theorem processLines_white {dateOnly ver : String} {mid : Nat} {hasDate : Bool}
    {lines : List String} {inH : Bool} {l : String}
    (hl : l ∈ processLines dateOnly ver mid hasDate lines inH)
    (hw : startsWithS l "[White" = true) : l = whiteLine ver := by
  rcases processLines_shape dateOnly ver mid hasDate lines inH l hl
    with h | h | h | h | ⟨_, hev | ⟨hnw, _⟩⟩
  · rw [h, not_sw_dateLine_white] at hw; exact absurd hw (by simp)
  · exact h
  · rw [h, not_sw_blackLine_white] at hw; exact absurd hw (by simp)
  · rw [h, not_sw_eventLine_white] at hw; exact absurd hw (by simp)
  · rw [ev_not_white hev] at hw; exact absurd hw (by simp)
  · rw [hnw] at hw; exact absurd hw (by simp)

theorem processLines_black {dateOnly ver : String} {mid : Nat} {hasDate : Bool}
    {lines : List String} {inH : Bool} {l : String}
    (hl : l ∈ processLines dateOnly ver mid hasDate lines inH)
    (hw : startsWithS l "[Black" = true) : l = blackLine ver := by
  rcases processLines_shape dateOnly ver mid hasDate lines inH l hl
    with h | h | h | h | ⟨_, hev | ⟨_, hnb⟩⟩
  · rw [h, not_sw_dateLine_black] at hw; exact absurd hw (by simp)
  · rw [h, not_sw_whiteLine_black] at hw; exact absurd hw (by simp)
  · exact h
  · rw [h, not_sw_eventLine_black] at hw; exact absurd hw (by simp)
  · rw [ev_not_black hev] at hw; exact absurd hw (by simp)
  · rw [hnb] at hw; exact absurd hw (by simp)

/-- The strengthened inductive invariant: the claimed processed-implies-
success property together with primary-key uniqueness of `match_id`. -/
def DBInv (db : DB) : Prop :=
  (∀ r ∈ db.rows, r.processed = true → r.status = "success")
  ∧ db.rows.Pairwise (fun a b => a.matchId ≠ b.matchId)

theorem uniq_mem_eq {l : List MatchRow}
    (hu : l.Pairwise (fun a b => a.matchId ≠ b.matchId))
    {a b : MatchRow} (ha : a ∈ l) (hb : b ∈ l) (hid : a.matchId = b.matchId) : a = b := by
  induction l with
  | nil => cases ha
  | cons x xs ih =>
    obtain ⟨hx, hxs⟩ := List.pairwise_cons.mp hu
    rcases List.mem_cons.mp ha with rfl | ha'
    · rcases List.mem_cons.mp hb with rfl | hb'
      · rfl
      · exact absurd hid (hx _ hb')
    · rcases List.mem_cons.mp hb with rfl | hb'
      · exact absurd hid.symm (hx _ ha')
      · exact ih hxs ha' hb'

theorem dbInv_empty : DBInv emptyDB := by
  constructor
  · intro r hr
    simp [emptyDB] at hr
  · simp [emptyDB]

theorem dbInv_insertOne {db : DB} (e : Nat × String × String) (h : DBInv db) :
    DBInv (insertOne db e) := by
  obtain ⟨hinv, huniq⟩ := h
  unfold insertOne
  by_cases hany : db.rows.any (fun r => r.matchId == e.1) = true
  · rw [if_pos hany]
    exact ⟨hinv, huniq⟩
  · rw [if_neg hany]
    constructor
    · intro r hr hp
      rcases List.mem_append.mp hr with h1 | h2
      · exact hinv r h1 hp
      · rw [List.mem_singleton.mp h2] at hp
        exact absurd hp (by simp [newRow])
    · rw [List.pairwise_append]
      refine ⟨huniq, List.pairwise_singleton _ _, ?_⟩
      intro a ha b hb hEq
      rw [List.mem_singleton.mp hb] at hEq
      apply hany
      rw [List.any_eq_true]
      exact ⟨a, ha, by simp [newRow] at hEq ⊢; exact hEq⟩

theorem dbInv_insert (db : DB) (es : List (Nat × String × String)) (h : DBInv db) :
    DBInv (insert_matches db es) := by
  unfold insert_matches
  induction es generalizing db with
  | nil => exact h
  | cons e es ih => exact ih (insertOne db e) (dbInv_insertOne e h)

theorem mem_pending {db : DB} {r : MatchRow} (h : r ∈ get_pending_downloads db none) :
    r ∈ db.rows ∧ eligible r = true := by
  unfold get_pending_downloads at h
  have hp := (List.perm_insertionSort dateGe (db.rows.filter eligible)).mem_iff.mp h
  exact List.mem_filter.mp hp

theorem dbInv_update {db : DB} (id : Nat) (st msg : String)
    (hmem : ∃ r, r ∈ get_pending_downloads db none ∧ r.matchId = id)
    (h : DBInv db) : DBInv (update_download_status db id st msg) := by
  obtain ⟨hinv, huniq⟩ := h
  obtain ⟨rp, hrp, hrpid⟩ := hmem
  obtain ⟨hrpmem, hrpel⟩ := mem_pending hrp
  have hrpnp : rp.processed = false := by
    by_contra hc
    rw [Bool.not_eq_false] at hc
    have hs := hinv rp hrpmem hc
    rw [eligible, hs] at hrpel
    simp at hrpel
  constructor
  · intro r' hr' hp'
    simp only [update_download_status, List.mem_map] at hr'
    obtain ⟨r, hr, rfl⟩ := hr'
    by_cases hid : (r.matchId == id) = true
    · have hreq : r = rp := uniq_mem_eq huniq hr hrpmem (by rw [Nat.beq_eq_true_eq] at hid; omega)
      rw [if_pos hid] at hp'
      simp only at hp'
      rw [hreq, hrpnp] at hp'
      exact absurd hp' (by simp)
    · rw [if_neg hid] at hp' ⊢
      exact hinv r hr hp'
  · simp only [update_download_status]
    rw [List.pairwise_map]
    refine huniq.imp ?_
    intro a b hab
    by_cases ha : (a.matchId == id) = true <;> by_cases hb : (b.matchId == id) = true <;>
      simp [ha, hb] <;> simp [Nat.beq_eq_true_eq] at ha hb <;> omega

theorem dbInv_mark {db : DB} (id : Nat)
    (hsel : ∃ r, r ∈ db.rows ∧ r.matchId = id ∧ processAllSelects r = true)
    (h : DBInv db) : DBInv (mark_processed db id) := by
  obtain ⟨hinv, huniq⟩ := h
  obtain ⟨rs, hrsmem, hrsid, hrssel⟩ := hsel
  have hrssucc : rs.status = "success" := by
    rw [processAllSelects, Bool.and_eq_true] at hrssel
    have := hrssel.1
    rwa [beq_iff_eq] at this
  constructor
  · intro r' hr' hp'
    simp only [mark_processed, List.mem_map] at hr'
    obtain ⟨r, hr, rfl⟩ := hr'
    by_cases hid : (r.matchId == id) = true
    · have hreq : r = rs := uniq_mem_eq huniq hr hrsmem (by rw [Nat.beq_eq_true_eq] at hid; omega)
      rw [if_pos hid]
      simp only
      rw [hreq, hrssucc]
    · rw [if_neg hid] at hp' ⊢
      exact hinv r hr hp'
  · simp only [mark_processed]
    rw [List.pairwise_map]
    refine huniq.imp ?_
    intro a b hab
    by_cases ha : (a.matchId == id) = true <;> by_cases hb : (b.matchId == id) = true <;>
      simp [ha, hb] <;> simp [Nat.beq_eq_true_eq] at ha hb <;> omega

theorem reachable_dbInv {db : DB} (h : Reachable db) : DBInv db := by
  induction h with
  | empty => exact dbInv_empty
  | insert es _ ih => exact dbInv_insert _ es ih
  | update id st msg hmem _ ih => exact dbInv_update id st msg hmem ih
  | mark id hsel _ ih => exact dbInv_mark id hsel ih

/-- Claim C1: the claim says an entry whose fetch attempt exhausts every
candidate URL is recorded `retry` while `attempts < MAX_RETRIES`, reaching
`failed` only at the third run with one audit row per run.  The code instead
passes `'failed'` to `update_download_status` on the very first exhaustion:
starting from a `pending` entry with `attempts = 0`, one run that fails all
four candidates records status `failed` with `attempts = 1` and one log row,
and the entry is already excluded from `get_pending_downloads`, so later
runs never touch it (no `pending → retry → retry → failed` sequence, one log
row in total). -/
theorem c1_exhaustion_records_failed_immediately :
    (download_match ⟨[⟨7, "2021-05-01", "match_7.pgn.tar.gz", "pending", 0, false⟩], []⟩
        7 "2021-05-01" "match_7.pgn.tar.gz" (fun _ => Resp.ok ⟨none, ""⟩)).db.rows
      = [⟨7, "2021-05-01", "match_7.pgn.tar.gz", "failed", 1, false⟩]
    ∧ (download_match ⟨[⟨7, "2021-05-01", "match_7.pgn.tar.gz", "pending", 0, false⟩], []⟩
        7 "2021-05-01" "match_7.pgn.tar.gz" (fun _ => Resp.ok ⟨none, ""⟩)).db.log
      = [⟨7, "failed", "All URL patterns failed"⟩]
    ∧ (download_match ⟨[⟨7, "2021-05-01", "match_7.pgn.tar.gz", "pending", 0, false⟩], []⟩
        7 "2021-05-01" "match_7.pgn.tar.gz" (fun _ => Resp.ok ⟨none, ""⟩)).returnValue = false
    ∧ get_pending_downloads (download_match
        ⟨[⟨7, "2021-05-01", "match_7.pgn.tar.gz", "pending", 0, false⟩], []⟩
        7 "2021-05-01" "match_7.pgn.tar.gz" (fun _ => Resp.ok ⟨none, ""⟩)).db none = [] := by
  decide

/-- Claim C2: the claim says a failed extraction of a downloaded archive
leaves the entry unprocessed for a later retry, `mark_processed` running
only after all units were extracted and appended.  In the code
`_extract_from_archive` catches the extraction error itself and returns the
empty list, so `process_match` falls through to `mark_processed`: an entry
with status `success`, `processed = false` and a malformed archive on disk
(its `tarParse` raises) ends with `processed = true` and zero appended
units. -/
theorem c2_extraction_failure_still_marks_processed :
    (processMatch (fun _ => none)
        (fun fn => if fn = "match_1.pgn.tar.gz" then some ⟨none, ""⟩ else none)
        ⟨[⟨1, "2021-05-01", "match_1.pgn.tar.gz", "success", 1, false⟩], []⟩
        1 "2021-05-01" "match_1.pgn.tar.gz").db.rows
      = [⟨1, "2021-05-01", "match_1.pgn.tar.gz", "success", 1, true⟩]
    ∧ (processMatch (fun _ => none)
        (fun fn => if fn = "match_1.pgn.tar.gz" then some ⟨none, ""⟩ else none)
        ⟨[⟨1, "2021-05-01", "match_1.pgn.tar.gz", "success", 1, false⟩], []⟩
        1 "2021-05-01" "match_1.pgn.tar.gz").appends = [] := by
  decide

/-- Claim C3: the claim says `_process_pgn_content` replaces the Event
header line with the provenance tag `[Event "Lc0 match <id>"]`.  In the
code the in-headers branch appends the original Event line and `continue`s,
so the replacement branch is unreachable inside the header block: on a
well-formed game the original Event line survives, the date header is
injected after it, White/Black are rewritten, and the provenance tag
appears nowhere in the output. -/
theorem c3_event_header_not_replaced :
    processPgnContent (fun s => if s = "2021-03-15" then some ⟨2021, 3, 15⟩ else none)
        "[Event \"Test Match\"]\n[White \"c1\"]\n[Black \"c2\"]\n\n1. e4 e5" "2021-03-15" 5
      = some "[Event \"Test Match\"]\n[Date \"2021-03-15\"]\n[White \"Lc0 v0.27.0\"]\n[Black \"Lc0 v0.27.0\"]\n\n1. e4 e5"
    ∧ containsStr
        "[Event \"Test Match\"]\n[Date \"2021-03-15\"]\n[White \"Lc0 v0.27.0\"]\n[Black \"Lc0 v0.27.0\"]\n\n1. e4 e5"
        "Lc0 match 5" = false := by
  decide

/-- Claim C6: bulk insert is idempotent.  Inserting an entry twice equals
inserting it once (a second insert of an existing id is a no-op, so status,
attempts and processed are unchanged by it), and when the id was not yet
present the store afterwards holds exactly one row for that id, the freshly
defaulted row. -/
theorem c6_insert_idempotent (db : DB) (e : Nat × String × String) :
    insert_matches (insert_matches db [e]) [e] = insert_matches db [e]
    ∧ ((∀ r ∈ db.rows, r.matchId ≠ e.1) →
        (insert_matches (insert_matches db [e]) [e]).rows.countP (fun r => r.matchId == e.1) = 1
        ∧ newRow e ∈ (insert_matches (insert_matches db [e]) [e]).rows) := by
  have hone : insert_matches db [e] = insertOne db e := rfl
  by_cases hany : db.rows.any (fun r => r.matchId == e.1) = true
  · have hskip : insertOne db e = db := by rw [insertOne, if_pos hany]
    constructor
    · rw [hone, hskip, hone, hskip]
    · intro hnone
      obtain ⟨r, hr, hrid⟩ := List.any_eq_true.mp hany
      rw [beq_iff_eq] at hrid
      exact absurd hrid (hnone r hr)
  · have hadd : insertOne db e = { db with rows := db.rows ++ [newRow e] } := by
      rw [insertOne, if_neg hany]
    have hagain : (db.rows ++ [newRow e]).any (fun r => r.matchId == e.1) = true := by
      rw [List.any_append]
      apply Bool.or_eq_true_iff.mpr
      right
      simp [newRow]
    constructor
    · rw [hone, hadd]
      show insertOne _ e = _
      rw [insertOne]
      simp only [hagain]
      rw [if_pos trivial]
    · intro hnone
      have hcnt0 : db.rows.countP (fun r => r.matchId == e.1) = 0 := by
        rw [List.countP_eq_zero]
        intro r hr
        simp only [beq_iff_eq]
        exact fun hc => hnone r hr hc
      have hrows : (insert_matches (insert_matches db [e]) [e]).rows = db.rows ++ [newRow e] := by
        rw [hone, hadd]
        show (insertOne _ e).rows = _
        rw [insertOne]
        simp only [hagain]
        rw [if_pos trivial]
      constructor
      · rw [hrows, List.countP_append, hcnt0]
        simp [newRow]
      · rw [hrows]
        exact List.mem_append_right _ (List.mem_singleton_self _)

theorem c6_insert_idempotent_witness :
    (insert_matches (insert_matches emptyDB [(1, "2021-01-01", "match_1.pgn.tar.gz")])
        [(1, "2021-01-01", "match_1.pgn.tar.gz")]).rows.countP (fun r => r.matchId == 1) = 1
    ∧ newRow (1, "2021-01-01", "match_1.pgn.tar.gz")
        ∈ (insert_matches (insert_matches emptyDB [(1, "2021-01-01", "match_1.pgn.tar.gz")])
            [(1, "2021-01-01", "match_1.pgn.tar.gz")]).rows :=
  (c6_insert_idempotent emptyDB (1, "2021-01-01", "match_1.pgn.tar.gz")).2
    (by intro r hr; simp [emptyDB] at hr)

/-- Claim C9: `_validate_pgn_content` is total and rejects by default: the
raised-exception outcome (`tarParse = none`) yields `false`, a filename
ending in neither `.tar.gz` nor `.pgn` yields `false`, and `true` is
returned exactly when the archive listing contains a `.pgn`-named member,
or the file is a plain `.pgn` whose first 500 decoded characters contain
`[Event` or `[White`. -/
theorem c9_validate_total_reject_by_default (c : Content) (fn : String) :
    (validatePgnContent c fn = true ↔
      ((endsWithS fn ".tar.gz" = true
          ∧ ∃ ms, c.tarParse = some ms ∧ ∃ m ∈ ms, endsWithS m.name ".pgn" = true)
        ∨ (endsWithS fn ".tar.gz" = false ∧ endsWithS fn ".pgn" = true
            ∧ (containsSeq "[Event".data (c.decoded.data.take 500) = true
                ∨ containsSeq "[White".data (c.decoded.data.take 500) = true))))
    ∧ (endsWithS fn ".tar.gz" = false → endsWithS fn ".pgn" = false →
        validatePgnContent c fn = false)
    ∧ (endsWithS fn ".tar.gz" = true → c.tarParse = none →
        validatePgnContent c fn = false) := by
  unfold validatePgnContent
  by_cases h1 : endsWithS fn ".tar.gz" = true
  · cases hc : c.tarParse with
    | none => simp [h1, hc]
    | some ms => simp [h1, hc, List.any_eq_true]
  · rw [Bool.not_eq_true] at h1
    by_cases h2 : endsWithS fn ".pgn" = true
    · simp [h1, h2]
    · rw [Bool.not_eq_true] at h2
      simp [h1, h2]

theorem c9_validate_witness :
    validatePgnContent ⟨none, "junk data"⟩ "payload.bin" = false :=
  (c9_validate_total_reject_by_default ⟨none, "junk data"⟩ "payload.bin").2.1
    (by decide) (by decide)

/-- Claim C10: `_get_lc0_version` is total with a fixed default.  An
unparseable date (the caught exception, modelled as a `none` parse) yields
`"v0.21.0"`; a parsed date on or after 1970-01-01 is mapped by the first
`VERSION_MAP` entry whose threshold it reaches (the loop always returns from
the table, since the table bottoms out at 1970-01-01); the post-loop
`"v0.21.0"` fallback is reached exactly for parsed dates before
1970-01-01. -/
theorem c10_version_lookup_total (parseIso : String → Option Date) (s : String) :
    ((firstTok s).bind parseIso = none → getLc0Version parseIso s = "v0.21.0")
    ∧ (∀ d : Date, (firstTok s).bind parseIso = some d →
        (Date.le ⟨1970, 1, 1⟩ d = true →
            (firstMatch VERSION_MAP d).isSome = true
            ∧ getLc0Version parseIso s = (firstMatch VERSION_MAP d).getD "v0.21.0")
        ∧ (Date.le ⟨1970, 1, 1⟩ d = false →
            firstMatch VERSION_MAP d = none ∧ getLc0Version parseIso s = "v0.21.0")) := by
  constructor
  · intro h
    rw [getLc0Version, h]
  · intro d hd
    constructor
    · intro hge
      refine ⟨firstMatch_isSome ⟨(⟨1970, 1, 1⟩, "v0.23.0"), by decide, hge⟩, ?_⟩
      rw [getLc0Version, hd]
      show versionFor VERSION_MAP d = _
      rw [versionFor_eq_getD]
    · intro hlt
      have hall : ∀ e ∈ VERSION_MAP, Date.le e.1 d = false := by
        intro e he
        by_contra hc
        rw [Bool.not_eq_false] at hc
        have hthr : Date.le ⟨1970, 1, 1⟩ e.1 = true := by
          have hAll : ∀ e2 ∈ VERSION_MAP, Date.le ⟨1970, 1, 1⟩ e2.1 = true := by decide
          exact hAll e he
        rw [Date.le_comp hthr hc] at hlt
        exact absurd hlt (by simp)
      refine ⟨firstMatch_none hall, ?_⟩
      rw [getLc0Version, hd]
      show versionFor VERSION_MAP d = _
      rw [versionFor_eq_getD, firstMatch_none hall]
      rfl

theorem c10_version_lookup_witness :
    getLc0Version (fun t => if t = "1969-12-31" then some ⟨1969, 12, 31⟩ else none)
        "1969-12-31" = "v0.21.0"
    ∧ firstMatch VERSION_MAP ⟨1969, 12, 31⟩ = none := by
  have h := ((c10_version_lookup_total
      (fun t => if t = "1969-12-31" then some ⟨1969, 12, 31⟩ else none)
      "1969-12-31").2 ⟨1969, 12, 31⟩ (by decide)).2 (by decide)
  exact ⟨h.2, h.1⟩

/-- Claim C8: at-most-one acceptance in `download_match`.  If no candidate
of the prefix is accepted (its response is not a 200 or its payload fails
validation) and candidate `k` is a 200 whose payload validates, the loop
stops at `k`: the payload is saved under the entry's filename, the store
records `success`, `True` is returned, and the result does not depend on
the responses of the candidates after `k`. -/
theorem c8_first_accepted_candidate_wins (db : DB) (matchId : Nat)
    (pgnFilename url : String) (c : Content) (pre rest : List (String × Resp))
    (hpre : ∀ cand ∈ pre, accepts pgnFilename cand = false)
    (hacc : validatePgnContent c pgnFilename = true) :
    tryCandidates db matchId pgnFilename (pre ++ (url, Resp.ok c) :: rest)
      = ⟨update_download_status db matchId "success" ("Downloaded from " ++ url),
          some (pgnFilename, c), true⟩ := by
  induction pre with
  | nil =>
    rw [List.nil_append, tryCandidates]
    simp [hacc]
  | cons hd tl ih =>
    have hhd := hpre hd (List.mem_cons_self hd tl)
    have htl : ∀ cand ∈ tl, accepts pgnFilename cand = false :=
      fun cand hc2 => hpre cand (List.mem_cons_of_mem hd hc2)
    rw [List.cons_append]
    obtain ⟨u, r⟩ := hd
    cases r with
    | ok c2 =>
      have hval : validatePgnContent c2 pgnFilename = false := hhd
      have step : tryCandidates db matchId pgnFilename
          ((u, Resp.ok c2) :: (tl ++ (url, Resp.ok c) :: rest))
          = tryCandidates db matchId pgnFilename (tl ++ (url, Resp.ok c) :: rest) :=
        if_neg (by rw [hval]; simp)
      rw [step]
      exact ih htl
    | notFound => exact ih htl
    | otherStatus code => exact ih htl
    | netError => exact ih htl

theorem c8_first_accepted_candidate_witness :
    tryCandidates emptyDB 42 "match_42.pgn.tar.gz"
        ([("u1", Resp.notFound)]
          ++ ("u2", Resp.ok ⟨some [⟨"g.pgn", MemberFile.content "x"⟩], ""⟩)
            :: [("u3", Resp.netError)])
      = ⟨update_download_status emptyDB 42 "success" ("Downloaded from " ++ "u2"),
          some ("match_42.pgn.tar.gz", ⟨some [⟨"g.pgn", MemberFile.content "x"⟩], ""⟩),
          true⟩ :=
  c8_first_accepted_candidate_wins emptyDB 42 "match_42.pgn.tar.gz" "u2"
    ⟨some [⟨"g.pgn", MemberFile.content "x"⟩], ""⟩
    [("u1", Resp.notFound)] [("u3", Resp.netError)]
    (by decide) (by decide)

/-- Claim C5: `get_pending_downloads` returns exactly the rows with status
`pending` or `retry` and `attempts < MAX_RETRIES` (as a permutation of the
filtered table, hence with multiplicity), ordered by date descending; with a
positive limit it returns the first `limit` of that order, and exactly
`limit` rows whenever at least `limit` rows are eligible. -/
theorem c5_get_pending_downloads_spec (db : DB) :
    List.Perm (get_pending_downloads db none) (db.rows.filter eligible)
    ∧ List.Sorted dateGe (get_pending_downloads db none)
    ∧ (∀ r ∈ get_pending_downloads db none, r ∈ db.rows ∧ eligible r = true)
    ∧ (∀ n : Nat, 0 < n →
        get_pending_downloads db (some n) = (get_pending_downloads db none).take n
        ∧ (n ≤ (db.rows.filter eligible).length →
            (get_pending_downloads db (some n)).length = n)) := by
  refine ⟨List.perm_insertionSort dateGe _, List.sorted_insertionSort dateGe _,
    fun r hr => mem_pending hr, ?_⟩
  intro n hn
  have hsome : get_pending_downloads db (some n)
      = (get_pending_downloads db none).take n := by
    show (if 0 < n then (get_pending_downloads db none).take n
        else get_pending_downloads db none) = _
    rw [if_pos hn]
  refine ⟨hsome, fun hle => ?_⟩
  rw [hsome, List.length_take]
  have hlen : (get_pending_downloads db none).length = (db.rows.filter eligible).length :=
    (List.perm_insertionSort dateGe _).length_eq
  omega

theorem c5_get_pending_downloads_witness :
    get_pending_downloads ⟨[⟨1, "2020-01-01", "match_1.pgn.tar.gz", "pending", 0, false⟩], []⟩
        (some 1)
      = (get_pending_downloads
          ⟨[⟨1, "2020-01-01", "match_1.pgn.tar.gz", "pending", 0, false⟩], []⟩ none).take 1
    ∧ (get_pending_downloads ⟨[⟨1, "2020-01-01", "match_1.pgn.tar.gz", "pending", 0, false⟩], []⟩
        (some 1)).length = 1 := by
  have h := (c5_get_pending_downloads_spec
      ⟨[⟨1, "2020-01-01", "match_1.pgn.tar.gz", "pending", 0, false⟩], []⟩).2.2.2 1 (by decide)
  exact ⟨h.1, h.2 (by decide)⟩

/-- Claim C7: in every store state reachable from the empty store by
`insert_matches`, by `update_download_status` on ids returned by
`get_pending_downloads`, and by `mark_processed` on ids selected by the
`process_all` query, `processed = true` implies `status = "success"`. -/
theorem c7_processed_implies_success (db : DB) (h : Reachable db) :
    ∀ r ∈ db.rows, r.processed = true → r.status = "success" :=
  (reachable_dbInv h).1

theorem c7_processed_implies_success_witness :
    MatchRow.status ⟨1, "2021-01-01", "match_1.pgn.tar.gz", "success", 1, true⟩ = "success" :=
  c7_processed_implies_success
    (mark_processed
      (update_download_status
        (insert_matches emptyDB [(1, "2021-01-01", "match_1.pgn.tar.gz")]) 1 "success" "ok") 1)
    (Reachable.mark 1
      ⟨⟨1, "2021-01-01", "match_1.pgn.tar.gz", "success", 1, false⟩, by decide, rfl, by decide⟩
      (Reachable.update 1 "success" "ok"
        ⟨⟨1, "2021-01-01", "match_1.pgn.tar.gz", "pending", 0, false⟩, by decide, rfl⟩
        (Reachable.insert [(1, "2021-01-01", "match_1.pgn.tar.gz")] Reachable.empty)))
    ⟨1, "2021-01-01", "match_1.pgn.tar.gz", "success", 1, true⟩ (by decide) rfl

/-- Claim C4: round-trip for an entry whose downloaded container holds a
single well-formed text unit.  With the archive parsing to one `.pgn`
member whose text is non-blank, starts with an `[Event` header, and carries
no `[Date` header, and with the entry's `occurred_at` parsing to `dt`,
`process_match` appends exactly one rewritten unit followed by the
blank-line separator to the aggregate addressed by `(dt.y, dt.m)`; the
output contains the injected `[Date "<token>"]` header, and every White or
Black header line of the output is the canonical `Lc0 <version>` label for
the entry's timestamp. -/
theorem c4_single_unit_roundtrip
    (parseIso : String → Option Date) (files : String → Option Content)
    (db : DB) (matchId : Nat) (dateStr pgnFilename mname unitText tok : String) (dt : Date)
    (c : Content)
    (hfile : files pgnFilename = some c)
    (htgz : endsWithS pgnFilename ".tar.gz" = true)
    (htar : c.tarParse = some [⟨mname, MemberFile.content unitText⟩])
    (hmname : endsWithS mname ".pgn" = true)
    (hblank : isBlank unitText = false)
    (htok : firstTok dateStr = some tok)
    (hparse : parseIso tok = some dt)
    (hnodate : hasDateIn20 (splitNl unitText) = false)
    (hhead : ∃ l0 r0, splitNl unitText = l0 :: r0 ∧ startsWithS l0 "[Event" = true) :
    ∃ outLines,
      outLines = processLines tok (getLc0Version parseIso dateStr) matchId false
          (splitNl unitText) true
      ∧ (processMatch parseIso files db matchId dateStr pgnFilename).appends
          = [((dt.y, dt.m), joinNl outLines ++ "\n\n")]
      ∧ dateLine tok ∈ outLines
      ∧ (∀ l ∈ outLines, startsWithS l "[White" = true →
          l = whiteLine (getLc0Version parseIso dateStr))
      ∧ (∀ l ∈ outLines, startsWithS l "[Black" = true →
          l = blackLine (getLc0Version parseIso dateStr)) := by
  refine ⟨_, rfl, ?_, ?_, ?_, ?_⟩
  · simp [processMatch, hfile, htgz, htar, hmname, hblank, htok, hparse, hnodate,
      extractFromArchive, extractLoop, processUnits, processPgnContent, organizeByMonth]
  · obtain ⟨l0, r0, hsplit, hl0⟩ := hhead
    rw [hsplit, processLines]
    rw [if_pos (by rw [hl0]; rfl)]
    simp
  · intro l hl hw
    exact processLines_white hl hw
  · intro l hl hw
    exact processLines_black hl hw

theorem c4_single_unit_roundtrip_witness :
    ∃ outLines,
      outLines = processLines "2021-03-15"
          (getLc0Version (fun t => if t = "2021-03-15" then some ⟨2021, 3, 15⟩ else none)
            "2021-03-15") 42 false
          (splitNl "[Event \"T\"]\n[White \"a\"]\n[Black \"b\"]\n\n1. d4") true
      ∧ (processMatch (fun t => if t = "2021-03-15" then some ⟨2021, 3, 15⟩ else none)
          (fun fn => if fn = "match_42.pgn.tar.gz" then
              some ⟨some [⟨"game.pgn",
                MemberFile.content "[Event \"T\"]\n[White \"a\"]\n[Black \"b\"]\n\n1. d4"⟩], ""⟩
            else none)
          emptyDB 42 "2021-03-15" "match_42.pgn.tar.gz").appends
          = [((2021, 3), joinNl outLines ++ "\n\n")]
      ∧ dateLine "2021-03-15" ∈ outLines
      ∧ (∀ l ∈ outLines, startsWithS l "[White" = true →
          l = whiteLine (getLc0Version
            (fun t => if t = "2021-03-15" then some ⟨2021, 3, 15⟩ else none) "2021-03-15"))
      ∧ (∀ l ∈ outLines, startsWithS l "[Black" = true →
          l = blackLine (getLc0Version
            (fun t => if t = "2021-03-15" then some ⟨2021, 3, 15⟩ else none) "2021-03-15")) :=
  c4_single_unit_roundtrip
    (fun t => if t = "2021-03-15" then some ⟨2021, 3, 15⟩ else none)
    (fun fn => if fn = "match_42.pgn.tar.gz" then
        some ⟨some [⟨"game.pgn",
          MemberFile.content "[Event \"T\"]\n[White \"a\"]\n[Black \"b\"]\n\n1. d4"⟩], ""⟩
      else none)
    emptyDB 42 "2021-03-15" "match_42.pgn.tar.gz" "game.pgn"
    "[Event \"T\"]\n[White \"a\"]\n[Black \"b\"]\n\n1. d4" "2021-03-15" ⟨2021, 3, 15⟩
    ⟨some [⟨"game.pgn",
      MemberFile.content "[Event \"T\"]\n[White \"a\"]\n[Black \"b\"]\n\n1. d4"⟩], ""⟩
    (by decide) (by decide) (by decide) (by decide) (by decide) (by decide) (by decide)
    (by decide)
    ⟨"[Event \"T\"]", ["[White \"a\"]", "[Black \"b\"]", "", "1. d4"], by decide, by decide⟩
